import Mathlib

/-!
Verification of the `prune-dts` public-API pipeline
(`repo-scripts/prune-dts/extract-public-api.ts`) against its specification.

The orchestration file `extract-public-api.ts` is embedded as a trace of the
side-effecting calls `generateApi` performs, in program order, together with
the configuration values `loadApiExtractorConfig` constructs.  The pipeline
stages implemented in `prune-dts.ts` (`pruneDts`, `addBlankLines`,
`removeUnusedImports`) are modelled from the specification, since that file
is not part of the sources under review; each such definition says so in its
doc comment.
-/

namespace PruneDts

/-- The `dtsRollup` section of the generated `api-extractor.json`
(`loadApiExtractorConfig`, extract-public-api.ts lines 78-82). -/
structure DtsRollupConfig where
  enabled : Bool
  publicTrimmedFilePath : String
  untrimmedFilePath : String
deriving DecidableEq, Repr

/-- The `apiReport` section of the generated `api-extractor.json`
(lines 86-90). -/
structure ApiReportConfig where
  enabled : Bool
  reportFileName : String
deriving DecidableEq, Repr

/-- The message log levels set in the generated `api-extractor.json`
(lines 91-108). -/
structure MessageLevels where
  aeMissingReleaseTag : String
  aeUnresolvedLink : String
  aeForgottenExport : String
  tsdocUndefinedTag : String
deriving DecidableEq, Repr

/-- The configuration value produced by `loadApiExtractorConfig`
(lines 66-115): the fields of the scratch `api-extractor.json` it writes. -/
structure ApiExtractorConfig where
  mainEntryPointFilePath : String
  dtsRollup : DtsRollupConfig
  tsdocMetadataEnabled : Bool
  apiReport : ApiReportConfig
  messages : MessageLevels
deriving DecidableEq, Repr

/-- Embedding of `loadApiExtractorConfig` (extract-public-api.ts lines
66-115): builds the extractor configuration from the package name, the
entry-point path and the two rollup paths.  `mainEntryPointFilePath` is the
`typescriptDtsPath` argument; `ae-forgotten-export` is logged at `error`
level exactly when the API report is enabled (line 100). -/
def loadApiExtractorConfig (packageName typescriptDtsPath rollupDtsPath
    untrimmedRollupDtsPath : String) (dtsRollupEnabled apiReportEnabled : Bool) :
    ApiExtractorConfig where
  mainEntryPointFilePath := typescriptDtsPath
  dtsRollup :=
    { enabled := dtsRollupEnabled
      publicTrimmedFilePath := rollupDtsPath
      untrimmedFilePath := untrimmedRollupDtsPath }
  tsdocMetadataEnabled := false
  apiReport :=
    { enabled := apiReportEnabled
      reportFileName := packageName ++ ".api.md" }
  messages :=
    { aeMissingReleaseTag := "none"
      aeUnresolvedLink := "none"
      aeForgottenExport := if apiReportEnabled then "error" else "none"
      tsdocUndefinedTag := "none" }

/-- One observable call made by `generateApi`, in the order the script
performs them. -/
inductive ApiEvent where
  | writeTsConfig (packageRoot : String)
  | writePkgJson (packageName : String)
  | extractorInvoke (config : ApiExtractorConfig)
  | pruneDtsFile (inputPath outputPath : String)
  | addBlankLinesFile (path : String)
  | removeUnusedImportsFile (path : String)
deriving DecidableEq, Repr

instance : Inhabited ApiEvent := ⟨ApiEvent.writePkgJson ""⟩

/-- Embedding of `generateApi` (extract-public-api.ts lines 133-175) as the
ordered trace of the calls it makes: write scratch configs, invoke the
extractor with `dtsRollup` enabled, prune `rollupDtsPath` into
`publicDtsPath`, add blank lines to `publicDtsPath`, remove unused imports
from `publicDtsPath`, then invoke the extractor a second time with
`publicDtsPath` as entry point and `apiReport` enabled. -/
def generateApi (packageName packageRoot typescriptDtsPath rollupDtsPath
    untrimmedRollupDtsPath publicDtsPath : String) : List ApiEvent :=
  [ ApiEvent.writeTsConfig packageRoot,
    ApiEvent.writePkgJson packageName,
    ApiEvent.extractorInvoke (loadApiExtractorConfig packageName
      typescriptDtsPath rollupDtsPath untrimmedRollupDtsPath true false),
    ApiEvent.pruneDtsFile rollupDtsPath publicDtsPath,
    ApiEvent.addBlankLinesFile publicDtsPath,
    ApiEvent.removeUnusedImportsFile publicDtsPath,
    ApiEvent.extractorInvoke (loadApiExtractorConfig packageName
      publicDtsPath rollupDtsPath untrimmedRollupDtsPath false true) ]

/-- Recognizer for the pruning event. -/
def isPruneEvent : ApiEvent → Bool
  | ApiEvent.pruneDtsFile _ _ => true
  | _ => false

/-- Recognizer for the blank-line-formatting event. -/
def isAddBlankLinesEvent : ApiEvent → Bool
  | ApiEvent.addBlankLinesFile _ => true
  | _ => false

/-- Recognizer for the import-normalization event. -/
def isRemoveUnusedImportsEvent : ApiEvent → Bool
  | ApiEvent.removeUnusedImportsFile _ => true
  | _ => false

/-- Recognizer for an extractor invocation. -/
def isExtractorInvoke : ApiEvent → Bool
  | ApiEvent.extractorInvoke _ => true
  | _ => false

/-- The positions of the extractor invocations within an event trace. -/
def invokeIndices (events : List ApiEvent) : List ℕ :=
  (List.range events.length).filter fun i =>
    isExtractorInvoke (events.getD i default)

/-- The extractor configurations passed to `Extractor.invoke`, in call
order. -/
def extractorConfigs (events : List ApiEvent) : List ApiExtractorConfig :=
  events.filterMap fun e =>
    match e with
    | ApiEvent.extractorInvoke c => some c
    | _ => none

/-- The entry-point path of an extractor invocation event, if it is one. -/
def entryPointOf : ApiEvent → Option String
  | ApiEvent.extractorInvoke c => some c.mainEntryPointFilePath
  | _ => none

/-- Modelled from the spec: the data model of `prune-dts.ts`, which is not
among the sources under review.  A top-level statement of a declaration file
is either an import statement (module specifier plus the set of local names
it binds) or a declaration carrying the identifiers it binds, the
identifiers it references, whether it is exported, and whether it bears the
recognized internal marker. -/
inductive Statement where
  | imp (moduleSpecifier : String) (boundNames : List String)
  | decl (binds : List String) (refs : List String)
      (exported : Bool) (internal : Bool)
deriving DecidableEq, Repr

instance : Inhabited Statement := ⟨Statement.imp "" []⟩

/-- The identifiers a statement binds (declares). -/
def bindsOf : Statement → List String
  | Statement.imp _ ns => ns
  | Statement.decl bs _ _ _ => bs

/-- The identifiers a statement references (uses). -/
def refsOf : Statement → List String
  | Statement.imp _ _ => []
  | Statement.decl _ rs _ _ => rs

/-- Whether a statement is an import statement. -/
def isImport : Statement → Bool
  | Statement.imp _ _ => true
  | _ => false

/-- Whether a statement is in the reachability root set: exported and not
carrying the internal marker. -/
def isRoot : Statement → Bool
  | Statement.imp _ _ => false
  | Statement.decl _ _ exported internal => exported && !internal

/-- Whether a statement is exported and carries the internal marker. -/
def isInternalExported : Statement → Bool
  | Statement.imp _ _ => false
  | Statement.decl _ _ exported internal => exported && internal

/-- Modelled from the spec: the names referenced by the surviving non-import
statements of a (pruned) declaration file, against which the import
normalizer intersects each import's bound names. -/
def survivorRefs (stmts : List Statement) : List String :=
  (stmts.filter fun s => !(isImport s)).flatMap refsOf

/-- Modelled from the spec: what the import normalizer does to one
statement.  An import's bound-name set becomes its intersection with the
names referenced by surviving non-import statements; an import whose
recomputed set is empty is removed (`none`); any non-import statement passes
through unchanged. -/
def normalizeStatement (stmts : List Statement) : Statement → Option Statement
  | Statement.imp m ns =>
      let kept := ns.filter fun n => (survivorRefs stmts).contains n
      if kept.isEmpty then none else some (Statement.imp m kept)
  | s => some s

/-- Modelled from the spec: `removeUnusedImports` of `prune-dts.ts` (not
among the sources under review), at the statement-model level: rewrite
every import to its surviving names, dropping imports left with none. -/
def removeUnusedImports (stmts : List Statement) : List Statement :=
  stmts.filterMap (normalizeStatement stmts)

/-- Whether the first list of characters is an initial segment of the
second. -/
def charsStartWith : List Char → List Char → Bool
  | [], _ => true
  | _ :: _, [] => false
  | p :: ps, c :: cs => p = c && charsStartWith ps cs

/-- A line of serialized declaration text is an import line when it starts
with the import keyword. -/
def isImportLine (l : String) : Bool := charsStartWith "import".toList l.toList

/-- A line is blank when it holds only whitespace. -/
def isBlankLine (l : String) : Bool := l.toList.all Char.isWhitespace

/-- Modelled from the spec: `addBlankLines` of `prune-dts.ts` (not among the
sources under review), over serialized text as a list of lines.  It ensures
exactly one blank line separates the contiguous leading block of
import-statement lines from the first subsequent statement, and leaves a
file with no leading import-statement lines unchanged. -/
def addBlankLines (lines : List String) : List String :=
  let imps := lines.takeWhile isImportLine
  let rest := lines.dropWhile isImportLine
  if imps.isEmpty then lines
  else imps ++ [""] ++ rest.dropWhile isBlankLine

/-- Modelled from the spec: a token of declaration-file text, for the
declaration parser of `prune-dts.ts` (not among the sources under review):
an identifier or a punctuation symbol. -/
inductive Token where
  | ident (name : String)
  | sym (c : Char)
deriving DecidableEq, Repr

/-- A character that may appear inside an identifier token. -/
def isIdentChar (c : Char) : Bool := c.isAlphanum || c = '_'

/-- The punctuation characters the tokenizer recognizes. -/
def isSymChar (c : Char) : Bool :=
  c ∈ ['(', ')', ';', ',', ':', '=', '<', '>', '.', '*', '@', '/', '-',
       '+', '|', '&', '[', ']', '?']
  || c = Char.ofNat 123 || c = Char.ofNat 125

/-- Modelled from the spec: the tokenizer of the declaration parser.  It
skips whitespace, groups identifier characters into identifier tokens,
accepts recognized punctuation, and fails (returns `none`) exactly when it
meets a character it cannot tokenize. -/
def tokenizeChars (cs : List Char) : Option (List Token) :=
  match cs with
  | [] => some []
  | c :: rest =>
    if c.isWhitespace then tokenizeChars rest
    else if isIdentChar c then
      match tokenizeChars (rest.dropWhile isIdentChar) with
      | none => none
      | some toks =>
          some (Token.ident (String.mk (c :: rest.takeWhile isIdentChar)) :: toks)
    else if isSymChar c then
      match tokenizeChars rest with
      | none => none
      | some toks => some (Token.sym c :: toks)
    else none
termination_by cs.length
decreasing_by
  · simp only [List.length_cons]; omega
  · have := (List.dropWhile_suffix (l := rest) isIdentChar).length_le
    simp only [List.length_cons]; omega
  · simp only [List.length_cons]; omega

/-- Tokenize a whole text. -/
def tokenizeText (text : String) : Option (List Token) :=
  tokenizeChars text.toList

/-- Modelled from the spec: the only fatal parser error — the input text
cannot be tokenized at all. -/
inductive ParseError where
  | cannotTokenize
deriving DecidableEq, Repr

/-- Modelled from the spec: a parsed top-level statement.  Syntax the parser
does not deeply understand degrades to `unknownStmt` with best-effort
reference extraction (every bare identifier token is a reference). -/
inductive ParsedStatement where
  | importStmt (boundNames : List String)
  | declStmt (keyword name : String) (refs : List String)
  | unknownStmt (refs : List String)
deriving DecidableEq, Repr

/-- The identifier tokens of a token group, in order. -/
def identsOf (toks : List Token) : List String :=
  toks.filterMap fun t =>
    match t with
    | Token.ident n => some n
    | _ => none

/-- Keywords that open a recognized declaration statement. -/
def declKeywords : List String :=
  ["class", "interface", "type", "const", "function", "enum", "namespace",
   "var", "let", "declare", "abstract"]

/-- Modelled from the spec: classify one semicolon-delimited token group as
a statement.  Import groups become `importStmt`, recognized declaration
shapes become `declStmt`, and anything else degrades to `unknownStmt`
rather than failing. -/
def classifyGroup (toks : List Token) : ParsedStatement :=
  match toks with
  | Token.ident first :: moreToks =>
      if first = "import" then
        ParsedStatement.importStmt
          ((identsOf moreToks).filter fun n => n ≠ "from")
      else if first = "export" then
        match moreToks with
        | Token.ident kw :: Token.ident nm :: bodyToks =>
            if declKeywords.contains kw then
              ParsedStatement.declStmt kw nm (identsOf bodyToks)
            else ParsedStatement.unknownStmt (identsOf toks)
        | _ => ParsedStatement.unknownStmt (identsOf toks)
      else
        match moreToks with
        | Token.ident nm :: bodyToks =>
            if declKeywords.contains first then
              ParsedStatement.declStmt first nm (identsOf bodyToks)
            else ParsedStatement.unknownStmt (identsOf toks)
        | _ => ParsedStatement.unknownStmt (identsOf toks)
  | _ => ParsedStatement.unknownStmt (identsOf toks)

/-- Split a token list into semicolon-delimited groups. -/
def splitGroups : List Token → List (List Token)
  | [] => [[]]
  | t :: ts =>
      let groups := splitGroups ts
      match t with
      | Token.sym c =>
          if c = ';' then [] :: groups
          else match groups with
            | [] => [[t]]
            | g :: gs => (t :: g) :: gs
      | _ => match groups with
        | [] => [[t]]
        | g :: gs => (t :: g) :: gs

/-- Build the statement sequence from a token list: split on semicolons,
drop empty groups, classify each group.  This phase is total: it never
fails, whatever the tokens. -/
def buildStatements (toks : List Token) : List ParsedStatement :=
  ((splitGroups toks).filter fun g => !g.isEmpty).map classifyGroup

/-- Modelled from the spec: the declaration parser.  It fails with a
`ParseError` exactly when the text cannot be tokenized; otherwise it always
produces a statement sequence. -/
def parse (text : String) : Except ParseError (List ParsedStatement) :=
  match tokenizeText text with
  | none => Except.error ParseError.cannotTokenize
  | some toks => Except.ok (buildStatements toks)

/-- A non-fatal warning: a referenced name matched no binder in the file. -/
structure UnresolvedReferenceWarning where
  name : String
deriving DecidableEq, Repr

/-- The names a parsed statement binds. -/
def parsedBinds : ParsedStatement → List String
  | ParsedStatement.importStmt ns => ns
  | ParsedStatement.declStmt _ nm _ => [nm]
  | ParsedStatement.unknownStmt _ => []

/-- The names a parsed statement references. -/
def parsedRefs : ParsedStatement → List String
  | ParsedStatement.importStmt _ => []
  | ParsedStatement.declStmt _ _ rs => rs
  | ParsedStatement.unknownStmt rs => rs

/-- Modelled from the spec: reference resolution.  Every referenced name
with no binder in the file yields an `UnresolvedReferenceWarning`; the
statements themselves are returned unchanged (the reference is treated as
externally resolved), so this phase never aborts processing. -/
def resolveReferences (stmts : List ParsedStatement) :
    List UnresolvedReferenceWarning × List ParsedStatement :=
  (((stmts.flatMap parsedRefs).filter fun n =>
      !(stmts.flatMap parsedBinds).contains n).map UnresolvedReferenceWarning.mk,
   stmts)

/-- The reference-graph edge test: statement `s` has an edge to statement
`t` when `s` references a name that `t` binds. -/
def edgeb (s t : Statement) : Bool :=
  (refsOf s).any fun n => (bindsOf t).contains n

/-- Modelled from the spec: the pruner's root set — the indices of the
statements that are exported without the internal marker. -/
def rootSet (stmts : List Statement) : Finset ℕ :=
  (Finset.range stmts.length).filter fun i =>
    isRoot (stmts.getD i default) = true

/-- One breadth-first expansion step of the pruner's closure: add every
statement referenced (through the edge relation) by an already-collected
statement. -/
def stepSet (stmts : List Statement) (s : Finset ℕ) : Finset ℕ :=
  s ∪ (Finset.range stmts.length).filter fun j =>
    ∃ i ∈ s, edgeb (stmts.getD i default) (stmts.getD j default) = true

/-- Modelled from the spec: the pruner's breadth-first reachability closure,
computed by iterating the expansion step once per statement of the file
(enough steps to reach the fixed point, see `closure_fixed`). -/
def closure (stmts : List Statement) : Finset ℕ :=
  (stepSet stmts)^[stmts.length] (rootSet stmts)

/-- The indices of the statements the pruner keeps, in original order. -/
def prunedIndices (stmts : List Statement) : List (Fin stmts.length) :=
  (List.finRange stmts.length).filter fun i => decide ((i : ℕ) ∈ closure stmts)

/-- Modelled from the spec: `pruneDts` of `prune-dts.ts` (not among the
sources under review), at the statement-model level: keep exactly the
statements in the reachability closure, preserving their original relative
order. -/
def pruneDts (stmts : List Statement) : List Statement :=
  (prunedIndices stmts).map stmts.get

/-- Modelled from the spec: a statement index is kept when it is in the
root set or reachable from it through the reference graph. -/
inductive Kept (stmts : List Statement) : ℕ → Prop where
  | root (i : ℕ) (h : i < stmts.length)
      (hr : isRoot (stmts.getD i default) = true) : Kept stmts i
  | step (i j : ℕ) (hi : Kept stmts i) (h : i < stmts.length)
      (hj : j < stmts.length)
      (he : edgeb (stmts.getD i default) (stmts.getD j default) = true) :
      Kept stmts j

/-- The spec's Scenario A input: an exported class `A` referencing `B`, a
non-exported class `B`, an internal-marked exported class `C` referencing
`D`, and a non-exported class `D` referenced only by `C`. -/
def scenarioA : List Statement :=
  [Statement.decl ["A"] ["B"] true false,
   Statement.decl ["B"] [] false false,
   Statement.decl ["C"] ["D"] true true,
   Statement.decl ["D"] [] false false]

/-- The spec's Scenario B input: an import binding `X` and `Y` followed by
an exported class `A` referencing only `X`. -/
def scenarioB : List Statement :=
  [Statement.imp "m" ["X", "Y"],
   Statement.decl ["A"] ["X"] true false]

/-- The spec's Scenario D input: two statements that mutually reference
each other, the first of which is a root. -/
def scenarioD : List Statement :=
  [Statement.decl ["A"] ["B"] true false,
   Statement.decl ["B"] ["A"] false false]

lemma subset_stepSet (stmts : List Statement) (s : Finset ℕ) :
    s ⊆ stepSet stmts s :=
  Finset.subset_union_left

lemma stepSet_subset_range (stmts : List Statement) (s : Finset ℕ)
    (hs : s ⊆ Finset.range stmts.length) :
    stepSet stmts s ⊆ Finset.range stmts.length :=
  Finset.union_subset hs (Finset.filter_subset _ _)

lemma rootSet_subset_range (stmts : List Statement) :
    rootSet stmts ⊆ Finset.range stmts.length :=
  Finset.filter_subset _ _

lemma iterate_subset_range (stmts : List Statement) (k : ℕ) :
    (stepSet stmts)^[k] (rootSet stmts) ⊆ Finset.range stmts.length := by
  induction k with
  | zero => exact rootSet_subset_range stmts
  | succ k ih =>
      rw [Function.iterate_succ_apply']
      exact stepSet_subset_range stmts _ ih

lemma iterate_succ_supset (stmts : List Statement) (k : ℕ) :
    (stepSet stmts)^[k] (rootSet stmts) ⊆
      (stepSet stmts)^[k + 1] (rootSet stmts) := by
  rw [Function.iterate_succ_apply']
  exact subset_stepSet stmts _

lemma iterate_mono_le (stmts : List Statement) (k m : ℕ) (hkm : k ≤ m) :
    (stepSet stmts)^[k] (rootSet stmts) ⊆
      (stepSet stmts)^[m] (rootSet stmts) := by
  induction m with
  | zero => simp [Nat.le_zero.mp hkm]
  | succ m ih =>
      rcases Nat.lt_or_ge k (m + 1) with hlt | hge
      · exact (ih (Nat.lt_succ_iff.mp hlt)).trans (iterate_succ_supset stmts m)
      · have : k = m + 1 := Nat.le_antisymm hkm hge
        subst this
        exact Finset.Subset.refl _

/-- The breadth-first closure reaches a fixed point after at most one
expansion step per statement: expanding it once more adds nothing. -/
lemma closure_fixed (stmts : List Statement) :
    stepSet stmts (closure stmts) = closure stmts := by
  classical
  set n := stmts.length with hn
  set f := stepSet stmts with hf
  set r := rootSet stmts with hr
  by_cases hex : ∃ k, k ≤ n ∧ f^[k + 1] r = f^[k] r
  · obtain ⟨k, hk, hfix⟩ := hex
    rw [Function.iterate_succ_apply'] at hfix
    have hiter : ∀ m, f^[m] (f^[k] r) = f^[k] r := fun m =>
      Function.iterate_fixed hfix m
    have hclos : closure stmts = f^[k] r := by
      show f^[n] r = f^[k] r
      have : f^[(n - k) + k] r = f^[n - k] (f^[k] r) :=
        Function.iterate_add_apply f (n - k) k r
      rw [Nat.sub_add_cancel hk] at this
      rw [this, hiter]
    rw [hclos]
    exact hfix
  · exfalso
    push_neg at hex
    have hstrict : ∀ k, k ≤ n → f^[k] r ⊂ f^[k + 1] r := fun k hk =>
      HasSubset.Subset.ssubset_of_ne (iterate_succ_supset stmts k)
        (fun heq => hex k hk heq.symm)
    have hcard : ∀ k, k ≤ n + 1 → k ≤ (f^[k] r).card := by
      intro k
      induction k with
      | zero => intro _; exact Nat.zero_le _
      | succ k ih =>
          intro hk1
          have hk : k ≤ n := Nat.lt_succ_iff.mp hk1
          have h1 : (f^[k] r).card < (f^[k + 1] r).card :=
            Finset.card_lt_card (hstrict k hk)
          have h2 : k ≤ (f^[k] r).card := ih (Nat.le_succ_of_le hk)
          omega
    have hbig : n + 1 ≤ (f^[n + 1] r).card := hcard (n + 1) (le_refl _)
    have hsmall : (f^[n + 1] r).card ≤ n := by
      have := Finset.card_le_card (iterate_subset_range stmts (n + 1))
      simpa using this
    omega

lemma mem_rootSet_kept (stmts : List Statement) (i : ℕ)
    (hi : i ∈ rootSet stmts) : Kept stmts i := by
  rw [rootSet, Finset.mem_filter, Finset.mem_range] at hi
  exact Kept.root i hi.1 hi.2

lemma mem_stepSet_kept (stmts : List Statement) (s : Finset ℕ)
    (hs : s ⊆ Finset.range stmts.length)
    (hk : ∀ i ∈ s, Kept stmts i) (j : ℕ) (hj : j ∈ stepSet stmts s) :
    Kept stmts j := by
  rw [stepSet, Finset.mem_union] at hj
  rcases hj with hj | hj
  · exact hk j hj
  · rw [Finset.mem_filter, Finset.mem_range] at hj
    obtain ⟨hjlt, i, his, he⟩ := hj
    have hilt : i < stmts.length := Finset.mem_range.mp (hs his)
    exact Kept.step i j (hk i his) hilt hjlt he

lemma mem_iterate_kept (stmts : List Statement) (k : ℕ) :
    ∀ i ∈ (stepSet stmts)^[k] (rootSet stmts), Kept stmts i := by
  induction k with
  | zero => exact fun i => mem_rootSet_kept stmts i
  | succ k ih =>
      rw [Function.iterate_succ_apply']
      exact fun i =>
        mem_stepSet_kept stmts _ (iterate_subset_range stmts k) ih i

lemma mem_closure_kept (stmts : List Statement) (i : ℕ)
    (h : i ∈ closure stmts) : Kept stmts i :=
  mem_iterate_kept stmts stmts.length i h

lemma kept_mem_closure (stmts : List Statement) (i : ℕ)
    (h : Kept stmts i) : i ∈ closure stmts := by
  induction h with
  | root i hi hr =>
      have hmem : i ∈ rootSet stmts :=
        Finset.mem_filter.mpr ⟨Finset.mem_range.mpr hi, hr⟩
      exact iterate_mono_le stmts 0 stmts.length (Nat.zero_le _) hmem
  | step i j hi hilt hjlt he ih =>
      rw [← closure_fixed stmts, stepSet, Finset.mem_union]
      right
      exact Finset.mem_filter.mpr ⟨Finset.mem_range.mpr hjlt, ⟨i, ih, he⟩⟩

lemma mem_closure_iff_kept (stmts : List Statement) (i : ℕ) :
    i ∈ closure stmts ↔ Kept stmts i :=
  ⟨mem_closure_kept stmts i, kept_mem_closure stmts i⟩

lemma getD_of_lt (l : List Statement) (i : ℕ) (h : i < l.length) :
    l.getD i default = l[i] := by
  rw [List.getD_eq_getElem?_getD, List.getElem?_eq_getElem h]
  rfl

lemma length_pruneDts (stmts : List Statement) :
    (pruneDts stmts).length = (prunedIndices stmts).length := by
  simp [pruneDts]

lemma mem_prunedIndices (stmts : List Statement) (i : Fin stmts.length) :
    i ∈ prunedIndices stmts ↔ (i : ℕ) ∈ closure stmts := by
  simp [prunedIndices, List.mem_filter, List.mem_finRange]

lemma getD_pruneDts (stmts : List Statement) (k : ℕ)
    (hk : k < (prunedIndices stmts).length) :
    (pruneDts stmts).getD k default =
      stmts.getD ((prunedIndices stmts)[k] : ℕ) default := by
  have hk' : k < (pruneDts stmts).length := by
    rw [length_pruneDts]; exact hk
  rw [getD_of_lt _ k hk',
    getD_of_lt _ _ ((prunedIndices stmts)[k]).isLt]
  simp [pruneDts]

lemma kept_lift (stmts : List Statement) (i : ℕ) (hK : Kept stmts i) :
    ∀ (k : ℕ) (hk : k < (prunedIndices stmts).length),
      ((prunedIndices stmts)[k] : ℕ) = i → Kept (pruneDts stmts) k := by
  induction hK with
  | root i hlt hr =>
      intro k hk hki
      refine Kept.root k (by rw [length_pruneDts]; exact hk) ?_
      rw [getD_pruneDts stmts k hk, hki]
      exact hr
  | step i j hKi hilt hjlt he ih =>
      intro k hk hkj
      have hiC : i ∈ closure stmts := kept_mem_closure stmts i hKi
      have hmem : (⟨i, hilt⟩ : Fin stmts.length) ∈ prunedIndices stmts :=
        (mem_prunedIndices stmts ⟨i, hilt⟩).mpr hiC
      rw [List.mem_iff_getElem] at hmem
      obtain ⟨ki, hki, hkie⟩ := hmem
      have hKp : Kept (pruneDts stmts) ki :=
        ih ki hki (by rw [hkie])
      refine Kept.step ki k hKp (by rw [length_pruneDts]; exact hki)
        (by rw [length_pruneDts]; exact hk) ?_
      rw [getD_pruneDts stmts ki hki, getD_pruneDts stmts k hk, hkj,
        show ((prunedIndices stmts)[ki] : ℕ) = i from by rw [hkie]]
      exact he

lemma pruneDts_all_kept (stmts : List Statement)
    (k : ℕ) (hk : k < (pruneDts stmts).length) :
    Kept (pruneDts stmts) k := by
  have hk' : k < (prunedIndices stmts).length := by
    rw [← length_pruneDts]; exact hk
  have hmem : (prunedIndices stmts)[k] ∈ prunedIndices stmts :=
    List.getElem_mem hk'
  have hiC : ((prunedIndices stmts)[k] : ℕ) ∈ closure stmts :=
    (mem_prunedIndices stmts _).mp hmem
  exact kept_lift stmts _ (mem_closure_kept stmts _ hiC) k hk' rfl

lemma takeWhile_append_block {α : Type} (p : α → Bool) (l₁ : List α) (a : α)
    (l₂ : List α) (h₁ : ∀ x ∈ l₁, p x = true) (ha : p a = false) :
    (l₁ ++ a :: l₂).takeWhile p = l₁ ∧
      (l₁ ++ a :: l₂).dropWhile p = a :: l₂ := by
  induction l₁ with
  | nil => simp [List.takeWhile, List.dropWhile, ha]
  | cons x xs ih =>
      have hx : p x = true := h₁ x (List.mem_cons_self x xs)
      have hxs := ih fun y hy => h₁ y (List.mem_cons_of_mem x hy)
      simp only [List.cons_append, List.takeWhile_cons, List.dropWhile_cons,
        hx, if_true]
      exact ⟨by rw [hxs.1], by rw [hxs.2]⟩

lemma isBlankLine_empty : isBlankLine "" = true := by decide

lemma isImportLine_empty : isImportLine "" = false := by decide

lemma normalizeStatement_imp (stmts : List Statement) (m : String)
    (ns : List String) :
    normalizeStatement stmts (Statement.imp m ns) =
      (if (ns.filter fun n => (survivorRefs stmts).contains n).isEmpty
       then none
       else some (Statement.imp m
         (ns.filter fun n => (survivorRefs stmts).contains n))) := rfl

lemma normalizeStatement_decl (stmts : List Statement) (bs rs : List String)
    (e i : Bool) :
    normalizeStatement stmts (Statement.decl bs rs e i) =
      some (Statement.decl bs rs e i) := rfl

lemma isImport_imp (m : String) (ns : List String) :
    isImport (Statement.imp m ns) = true := rfl

lemma isImport_decl (bs rs : List String) (e i : Bool) :
    isImport (Statement.decl bs rs e i) = false := rfl

lemma contains_iff_mem (l : List String) (n : String) :
    l.contains n = true ↔ n ∈ l :=
  List.elem_iff

/-- C1 counterexample: in the trace of `generateApi` on concrete arguments,
the import-normalization call does not precede the formatting call, so the
claimed order (pruning, then import normalization, then formatting) is
false: the script formats before it normalizes imports. -/
theorem generateApi_claimed_order_false :
    ¬ (((generateApi "p" "root" "ts" "rollup" "untrimmed" "public").findIdx
          isPruneEvent <
        (generateApi "p" "root" "ts" "rollup" "untrimmed" "public").findIdx
          isRemoveUnusedImportsEvent)
      ∧ ((generateApi "p" "root" "ts" "rollup" "untrimmed" "public").findIdx
          isRemoveUnusedImportsEvent <
        (generateApi "p" "root" "ts" "rollup" "untrimmed" "public").findIdx
          isAddBlankLinesEvent)) := by
  decide

/-- C1 (amended): for every file processed by `generateApi`, the pipeline
applies pruning first, then blank-line formatting on the pruned output,
and import normalization last, on the formatted output. -/
theorem generateApi_stage_order (pn pr ts ro un pub : String) :
    ((generateApi pn pr ts ro un pub).findIdx isPruneEvent <
      (generateApi pn pr ts ro un pub).findIdx isAddBlankLinesEvent)
    ∧ ((generateApi pn pr ts ro un pub).findIdx isAddBlankLinesEvent <
      (generateApi pn pr ts ro un pub).findIdx isRemoveUnusedImportsEvent) := by
  refine ⟨?_, ?_⟩ <;>
    simp [generateApi, List.findIdx_cons, isPruneEvent,
      isAddBlankLinesEvent, isRemoveUnusedImportsEvent, isExtractorInvoke]

/-- C9: in every run of `generateApi` the extractor is invoked exactly at
trace positions 2 and 6; the second invocation's entry point is exactly
`publicDtsPath`, the file produced by the pruning call at position 3 and
post-processed by the calls at positions 4 and 5, so the two invocations
are strictly sequential with the second consuming the first pass's pruned
output. -/
theorem generateApi_second_invocation_input (pn pr ts ro un pub : String) :
    invokeIndices (generateApi pn pr ts ro un pub) = [2, 6]
    ∧ entryPointOf ((generateApi pn pr ts ro un pub).getD 6 default) =
        some pub
    ∧ (generateApi pn pr ts ro un pub).getD 3 default =
        ApiEvent.pruneDtsFile ro pub
    ∧ (generateApi pn pr ts ro un pub).getD 4 default =
        ApiEvent.addBlankLinesFile pub
    ∧ (generateApi pn pr ts ro un pub).getD 5 default =
        ApiEvent.removeUnusedImportsFile pub :=
  ⟨rfl, rfl, rfl, rfl, rfl⟩

/-- C10: the first extractor invocation of `generateApi` has `dtsRollup`
enabled and `apiReport` disabled, the second the reverse; consequently the
`ae-forgotten-export` message is reported at `error` level only in the
second (report) invocation and is silenced in the first. -/
theorem generateApi_invocation_configs (pn pr ts ro un pub : String) :
    extractorConfigs (generateApi pn pr ts ro un pub) =
      [loadApiExtractorConfig pn ts ro un true false,
       loadApiExtractorConfig pn pub ro un false true]
    ∧ (loadApiExtractorConfig pn ts ro un true false).dtsRollup.enabled = true
    ∧ (loadApiExtractorConfig pn ts ro un true false).apiReport.enabled = false
    ∧ (loadApiExtractorConfig pn ts ro un true
        false).messages.aeForgottenExport = "none"
    ∧ (loadApiExtractorConfig pn pub ro un false true).dtsRollup.enabled = false
    ∧ (loadApiExtractorConfig pn pub ro un false true).apiReport.enabled = true
    ∧ (loadApiExtractorConfig pn pub ro un false
        true).messages.aeForgottenExport = "error" :=
  ⟨rfl, rfl, rfl, rfl, rfl, rfl, rfl⟩

/-- C2: the pruner keeps a statement exactly when its index is in the root
set or reachable from the root set through the reference graph (`Kept`);
the output is the kept statements in original order; and an internal-marked
exported statement is never a root (retention of such a statement can only
come through `Kept.step`, i.e. through a reference from a kept
statement). -/
theorem pruneDts_retains_iff_reachable (stmts : List Statement) :
    (∀ j : Fin stmts.length, j ∈ prunedIndices stmts ↔ Kept stmts (j : ℕ))
    ∧ pruneDts stmts = (prunedIndices stmts).map stmts.get
    ∧ (∀ s : Statement, isInternalExported s = true → isRoot s = false) := by
  refine ⟨fun j => ?_, rfl, fun s hs => ?_⟩
  · rw [mem_prunedIndices]
    exact mem_closure_iff_kept stmts j
  · cases s with
    | imp m ns => rfl
    | decl bs rs exported internal =>
        cases exported <;> cases internal <;> simp_all [isInternalExported,
          isRoot]

/-- C2 witness: on the spec's Scenario A, the root `A` (index 0) is kept,
the internal-marked exported `C` is not a root, and by the theorem's
characterization index 0 is in the pruned output's index set. -/
theorem pruneDts_retains_iff_reachable_witness :
    (⟨0, by decide⟩ : Fin scenarioA.length) ∈ prunedIndices scenarioA
    ∧ isRoot (Statement.decl ["C"] ["D"] true true) = false :=
  ⟨((pruneDts_retains_iff_reachable scenarioA).1 ⟨0, by decide⟩).mpr
      (Kept.root 0 (by decide) (by decide)),
   (pruneDts_retains_iff_reachable scenarioA).2.2
      (Statement.decl ["C"] ["D"] true true) (by decide)⟩

/-- C3: pruning is idempotent — pruning an already-pruned file (with the
root set derived the same way, from the export and internal markers) yields
the identical statement list. -/
theorem pruneDts_idempotent (stmts : List Statement) :
    pruneDts (pruneDts stmts) = pruneDts stmts := by
  have hall : prunedIndices (pruneDts stmts) =
      List.finRange (pruneDts stmts).length := by
    unfold prunedIndices
    apply List.filter_eq_self.mpr
    intro a _
    exact decide_eq_true
      (kept_mem_closure _ _ (pruneDts_all_kept stmts a a.isLt))
  show (prunedIndices (pruneDts stmts)).map (pruneDts stmts).get =
    pruneDts stmts
  rw [hall]
  exact List.finRange_map_get (pruneDts stmts)

/-- C5: cycles in the reference graph are harmless.  The breadth-first
closure stabilizes — one further expansion step changes nothing, so the
traversal needs only finitely many steps — and when two statements
reference each other and both are reachable, both are in the closure and
hence both are retained. -/
theorem pruneDts_cycle_safe (stmts : List Statement) (i j : ℕ)
    (_hi : i < stmts.length) (_hj : j < stmts.length)
    (hKi : Kept stmts i) (hKj : Kept stmts j)
    (_hij : edgeb (stmts.getD i default) (stmts.getD j default) = true)
    (_hji : edgeb (stmts.getD j default) (stmts.getD i default) = true) :
    stepSet stmts (closure stmts) = closure stmts
    ∧ i ∈ closure stmts ∧ j ∈ closure stmts :=
  ⟨closure_fixed stmts, kept_mem_closure stmts i hKi,
    kept_mem_closure stmts j hKj⟩

/-- C5 witness: on the spec's Scenario D (two mutually referencing
statements, the first a root), the closure is stable and both statements
are retained. -/
theorem pruneDts_cycle_safe_witness :
    stepSet scenarioD (closure scenarioD) = closure scenarioD
    ∧ (0 : ℕ) ∈ closure scenarioD ∧ (1 : ℕ) ∈ closure scenarioD :=
  pruneDts_cycle_safe scenarioD 0 1 (by decide) (by decide)
    (Kept.root 0 (by decide) (by decide))
    (Kept.step 0 1 (Kept.root 0 (by decide) (by decide)) (by decide)
      (by decide) (by decide))
    (by decide) (by decide)

/-- C4: the import normalizer recomputes each import's bound-name set as
the intersection of its original bound names with the names referenced by
surviving non-import statements; an import whose recomputed set is empty is
removed (`none`), and a surviving one is rewritten to the same module with
exactly the surviving names. -/
theorem removeUnusedImports_minimal (stmts : List Statement) :
    removeUnusedImports stmts = stmts.filterMap (normalizeStatement stmts)
    ∧ (∀ m ns, normalizeStatement stmts (Statement.imp m ns) = none ↔
        ∀ n ∈ ns, n ∉ survivorRefs stmts)
    ∧ (∀ m ns kept, normalizeStatement stmts (Statement.imp m ns) =
        some (Statement.imp m kept) →
        ∀ n, n ∈ kept ↔ (n ∈ ns ∧ n ∈ survivorRefs stmts))
    ∧ (∀ m ns out, normalizeStatement stmts (Statement.imp m ns) = some out →
        ∃ kept, out = Statement.imp m kept ∧ kept ≠ []) := by
  refine ⟨rfl, fun m ns => ?_, fun m ns kept h n => ?_, fun m ns out h => ?_⟩
  · rw [normalizeStatement_imp]
    by_cases hc : (ns.filter fun n =>
        (survivorRefs stmts).contains n).isEmpty = true
    · rw [if_pos hc]
      refine ⟨fun _ => ?_, fun _ => rfl⟩
      rw [List.isEmpty_iff, List.filter_eq_nil_iff] at hc
      intro n hn hmem
      exact hc n hn ((contains_iff_mem _ n).mpr hmem)
    · rw [if_neg hc]
      refine ⟨fun h => absurd h (by simp), fun hall => absurd ?_ hc⟩
      rw [List.isEmpty_iff, List.filter_eq_nil_iff]
      intro n hn
      rw [Bool.not_eq_true]
      rcases hb : (survivorRefs stmts).contains n with _ | _
      · rfl
      · exact absurd ((contains_iff_mem _ n).mp hb) (hall n hn)
  · rw [normalizeStatement_imp] at h
    by_cases hc : (ns.filter fun n =>
        (survivorRefs stmts).contains n).isEmpty = true
    · rw [if_pos hc] at h
      exact absurd h (by simp)
    · rw [if_neg hc] at h
      have hk : kept = ns.filter fun n => (survivorRefs stmts).contains n := by
        injection h with h1
        injection h1 with h2 h3
        exact h3.symm
      subst hk
      rw [List.mem_filter, contains_iff_mem]
  · rw [normalizeStatement_imp] at h
    by_cases hc : (ns.filter fun n =>
        (survivorRefs stmts).contains n).isEmpty = true
    · rw [if_pos hc] at h
      exact absurd h (by simp)
    · rw [if_neg hc] at h
      refine ⟨ns.filter fun n => (survivorRefs stmts).contains n,
        (Option.some_injective _ h).symm, ?_⟩
      intro hnil
      rw [List.isEmpty_iff] at hc
      exact hc hnil

/-- C4 witness: on the spec's Scenario B, an import left with no referenced
names is removed, and the surviving name set of the rewritten import is the
intersection of the original names with the referenced names. -/
theorem removeUnusedImports_minimal_witness :
    normalizeStatement scenarioB (Statement.imp "m2" ["Y"]) = none
    ∧ ("X" ∈ ["X"] ↔ ("X" ∈ ["X", "Y"] ∧ "X" ∈ survivorRefs scenarioB)) :=
  ⟨((removeUnusedImports_minimal scenarioB).2.1 "m2" ["Y"]).mpr (by decide),
   (removeUnusedImports_minimal scenarioB).2.2.1 "m2" ["X", "Y"] ["X"]
     (by decide) "X"⟩

lemma filterMap_norm_frame (stmts l : List Statement) :
    (l.filterMap (normalizeStatement stmts)).filter (fun s => !(isImport s)) =
      l.filter (fun s => !(isImport s)) := by
  induction l with
  | nil => rfl
  | cons a l ih =>
      cases a with
      | imp m ns =>
          rw [List.filterMap_cons, normalizeStatement_imp]
          by_cases hc : (ns.filter fun n =>
              (survivorRefs stmts).contains n).isEmpty = true
          · rw [if_pos hc, List.filter_cons, isImport_imp]
            simpa using ih
          · rw [if_neg hc]
            simp only [List.filter_cons, isImport_imp, Bool.not_true,
              if_neg (by simp : ¬ (false = true))]
            exact ih
      | decl bs rs e i =>
          rw [List.filterMap_cons, normalizeStatement_decl,
            List.filter_cons, List.filter_cons, isImport_decl]
          simp only [Bool.not_false, if_pos rfl]
          rw [ih]

/-- C6: the import normalizer never touches a statement outside the import
block — the subsequence of non-import statements of its output is exactly
the subsequence of non-import statements of its input. -/
theorem removeUnusedImports_frame (stmts : List Statement) :
    (removeUnusedImports stmts).filter (fun s => !(isImport s)) =
      stmts.filter (fun s => !(isImport s)) :=
  filterMap_norm_frame stmts stmts

/-- C7: the formatter is idempotent — adding the blank line after the
block of imports twice produces the same text as adding it once. -/
theorem addBlankLines_idempotent (lines : List String) :
    addBlankLines (addBlankLines lines) = addBlankLines lines := by
  by_cases himp : (lines.takeWhile isImportLine).isEmpty = true
  · have h1 : addBlankLines lines = lines := by
      unfold addBlankLines
      simp [himp]
    rw [h1]
    exact h1
  · have h1 : addBlankLines lines =
        lines.takeWhile isImportLine ++ [""] ++
          (lines.dropWhile isImportLine).dropWhile isBlankLine := by
      unfold addBlankLines
      simp [himp]
    set imps := lines.takeWhile isImportLine with himps
    set r := (lines.dropWhile isImportLine).dropWhile isBlankLine with hrdef
    have hall : ∀ x ∈ imps, isImportLine x = true := fun x hx =>
      List.mem_takeWhile_imp hx
    have hsplit := takeWhile_append_block isImportLine imps "" r hall
      isImportLine_empty
    have hassoc : imps ++ [""] ++ r = imps ++ ("" :: r) := by simp
    rw [h1]
    unfold addBlankLines
    rw [hassoc, hsplit.1, hsplit.2]
    rw [if_neg himp]
    simp only [List.dropWhile_cons, isBlankLine_empty, if_true]
    rw [hrdef]
    rw [List.dropWhile_idempotent]
    simp

/-- C8: the parser fails, with the sole `ParseError`, exactly when the text
cannot be tokenized; whenever tokenization succeeds parsing succeeds (any
partial or unknown syntax degrades to an `unknownStmt` inside
`buildStatements` rather than failing); and reference resolution returns
the statements unchanged, recording unresolved references only as warnings,
so it never aborts processing. -/
theorem parse_error_iff_untokenizable (text : String) :
    (parse text = Except.error ParseError.cannotTokenize ↔
      tokenizeText text = none)
    ∧ ((parse text).isOk = (tokenizeText text).isSome)
    ∧ (∀ stmts : List ParsedStatement, (resolveReferences stmts).2 = stmts) := by
  refine ⟨?_, ?_, fun stmts => rfl⟩ <;>
    cases h : tokenizeText text <;>
      simp [parse, h, Except.isOk, Except.toBool]

set_option maxRecDepth 4000 in
/-- Sanity check, spec Scenario A: pruning keeps the exported `A` and the
`B` it references, and drops the internal-marked `C` and its private
dependency `D`. -/
theorem scenarioA_pruned :
    pruneDts scenarioA =
      [Statement.decl ["A"] ["B"] true false,
       Statement.decl ["B"] [] false false] := by
  decide

/-- Sanity check, spec Scenario B: the normalizer rewrites the import to
bind only `X`, the one name a surviving statement references. -/
theorem scenarioB_normalized :
    removeUnusedImports scenarioB =
      [Statement.imp "m" ["X"], Statement.decl ["A"] ["X"] true false] := by
  decide

/-- Sanity check, spec Scenario C: the formatter inserts exactly one blank
line between the import block and the first statement. -/
theorem scenarioC_formatted :
    addBlankLines ["import x from m", "export class A"] =
      ["import x from m", "", "export class A"] := by
  decide

set_option maxRecDepth 4000 in
/-- Sanity check, spec Scenario D: pruning a mutually referencing pair that
is reachable from the root keeps both statements. -/
theorem scenarioD_pruned : pruneDts scenarioD = scenarioD := by
  decide

end PruneDts
